import Mathlib

/-!
Verification of the knowledge-retrieval core of `src/rag_system.py`
(class `DynamoRAG`).

The embedding models:
  * vectors (`numpy` arrays / stored embedding lists) as `List ℚ`;
  * the DynamoDB table as a `List KnowledgeItem` in scan order, with
    `put_item` replacing the entry holding the same `id` (or appending);
  * the sentence encoder as an arbitrary function `String → List ℚ`;
  * Python's `hash` as an arbitrary function `String → Int` (it is
    deterministic within one process, which is all `add_knowledge` uses);
  * the floating-point cosine similarity `np.dot(q, v) / (‖q‖ * ‖v‖)` as a
    real number via `Real.sqrt`; the `0/0` case (a zero-norm vector), which
    evaluates to NaN in the source, is modelled by an `Option` key that
    compares `false` against everything, exactly as NaN does under `<`;
  * `list.sort(key=..., reverse=True)` as a stable descending insertion
    sort driven by the boolean comparison on the keys;
  * the Python slice `xs[:top_k]` including its negative-index semantics.
-/

/-- A stored knowledge record, as built by `add_knowledge`
(`src/rag_system.py`, lines 38-44). -/
structure KnowledgeItem where
  id : String
  content : String
  category : String
  embedding : List ℚ
  metadata : List (String × String)
deriving DecidableEq

/-- `np.dot` of two vectors (pairwise products, summed). -/
def dot (q v : List ℚ) : ℚ :=
  (List.zipWith (fun a b => a * b) q v).sum

/-- The squared Euclidean norm, `np.linalg.norm(v) ** 2`. -/
def normSq (v : List ℚ) : ℚ :=
  dot v v

/-- The similarity the source computes at lines 60-62:
`np.dot(q, v) / (np.linalg.norm(q) * np.linalg.norm(v))`, read over ℝ.
The source divides floats; when both norms are nonzero this is exactly the
real-number cosine similarity.  The `0/0` (NaN) case is handled separately
by `simKey`. -/
noncomputable def cosineSim (q v : List ℚ) : ℝ :=
  (dot q v : ℝ) / (Real.sqrt (normSq q : ℝ) * Real.sqrt (normSq v : ℝ))

/-- Decides `a / Real.sqrt s < b / Real.sqrt t` for positive rationals
`s`, `t` using only rational arithmetic (sign analysis plus squaring). -/
def ltPair (a s b t : ℚ) : Bool :=
  if a < 0 then
    (if b < 0 then decide (b * b * s < a * a * t) else true)
  else
    (if b < 0 then false else decide (a * a * t < b * b * s))

/-- The sort key the similarity comparison operates on.  `none` models the
float NaN produced by the source when `q` or `v` has zero norm (there the
division is `0/0`); `some (d, s)` carries the data `(dot q v, normSq v)`
that determines the similarity up to the common positive factor `‖q‖`. -/
def simKey (q v : List ℚ) : Option (ℚ × ℚ) :=
  if normSq q = 0 ∨ normSq v = 0 then none else some (dot q v, normSq v)

/-- Comparison of two sort keys, mirroring Python's `<` on the float
similarity values: every comparison against NaN is `False`. -/
def keyLt : Option (ℚ × ℚ) → Option (ℚ × ℚ) → Bool
  | some p, some r => ltPair p.1 p.2 r.1 r.2
  | _, _ => false

/-- One step of a stable descending insertion: `x` is placed before the
first element not strictly greater than it, so among equal keys earlier
elements stay first — the order produced by
`list.sort(key=..., reverse=True)`. -/
def insertDesc (lt : α → α → Bool) (x : α) : List α → List α
  | [] => [x]
  | y :: ys => if lt x y then y :: insertDesc lt x ys else x :: y :: ys

/-- Stable descending sort (models `similarities.sort(key=lambda x: x[0],
reverse=True)` at line 66). -/
def sortDesc (lt : α → α → Bool) : List α → List α
  | [] => []
  | x :: xs => insertDesc lt x (sortDesc lt xs)

/-- The Python slice `l[:k]` for an `int` `k`, including the negative
case: `l[:k]` with `k < 0` is all but the last `|k|` elements. -/
def pySlice (l : List α) (k : Int) : List α :=
  if 0 ≤ k then l.take k.toNat else l.take (l.length - (-k).toNat)

/-- The `similarities` list built in the loop at lines 57-63: every
scanned item, paired with its similarity key.  No item is filtered out. -/
def scored (qv : List ℚ) (items : List KnowledgeItem) :
    List (Option (ℚ × ℚ) × KnowledgeItem) :=
  items.map (fun it => (simKey qv it.embedding, it))

/-- `search` from the point where the query vector is known: score every
item, sort descending by score, slice `[:top_k]`, drop the scores
(lines 57-67). -/
def searchVec (qv : List ℚ) (items : List KnowledgeItem) (top_k : Int) :
    List KnowledgeItem :=
  (pySlice (sortDesc (fun x y => keyLt x.1 y.1) (scored qv items)) top_k).map
    (fun p => p.2)

/-- `DynamoRAG.search` (lines 48-67): encode the query, then rank the
scanned items. -/
def search (enc : String → List ℚ) (query : String)
    (items : List KnowledgeItem) (top_k : Int) : List KnowledgeItem :=
  searchVec (enc query) items top_k

/-- `DynamoRAG.get_context` (lines 69-79): rank with the default
`top_k = 3`, return `""` on no results, otherwise render the numbered
list. -/
def get_context (enc : String → List ℚ) (query : String)
    (items : List KnowledgeItem) : String :=
  let results := search enc query items 3
  if results.isEmpty then ""
  else
    results.enum.foldl
      (fun s p => s ++ (toString (p.1 + 1) ++ ". " ++ p.2.content ++ "\n"))
      "📚 Relevant Knowledge:\n"

/-- DynamoDB `put_item`: overwrite the item holding the same key `id` if
one exists (scan position preserved), otherwise add the item. -/
def putItem (i : KnowledgeItem) (table : List KnowledgeItem) :
    List KnowledgeItem :=
  if table.any (fun x => decide (x.id = i.id)) then
    table.map (fun x => if x.id = i.id then i else x)
  else table ++ [i]

/-- The id computed at line 39: `f"{category}_{hash(content)}"`. -/
def derivedId (h : String → Int) (category content : String) : String :=
  category ++ "_" ++ toString (h content)

/-- `DynamoRAG.add_knowledge` (lines 34-46): build the item (id derived
from category and content, embedding from the encoder, `metadata or {}`)
and `put_item` it.  There is no validation of any field. -/
def add_knowledge (enc : String → List ℚ) (h : String → Int)
    (content : String) (category : String)
    (metadata : Option (List (String × String)))
    (table : List KnowledgeItem) : List KnowledgeItem :=
  putItem
    { id := derivedId h category content
      content := content
      category := category
      embedding := enc content
      metadata := metadata.getD [] }
    table

/-- A sequence of `add_knowledge` calls, each given as
`(content, category, metadata)`. -/
def applyCalls (enc : String → List ℚ) (h : String → Int)
    (calls : List (String × String × Option (List (String × String))))
    (table : List KnowledgeItem) : List KnowledgeItem :=
  calls.foldl (fun t c => add_knowledge enc h c.1 c.2.1 c.2.2 t) table

/-- The numbered-list rendering of ranked results described by the spec:
the header followed by the concatenation of one `"{i}. {content}\n"` line
per item, numbered from 1. -/
def renderNumbered (l : List KnowledgeItem) : String :=
  "📚 Relevant Knowledge:\n" ++
    String.join
      (l.enum.map (fun p => toString (p.1 + 1) ++ ". " ++ p.2.content ++ "\n"))

/-- Concrete items used in the ranking examples. -/
def item10 : KnowledgeItem :=
  { id := "k1", content := "one-zero", category := "general",
    embedding := [1, 0], metadata := [] }

def item01 : KnowledgeItem :=
  { id := "k2", content := "zero-one", category := "general",
    embedding := [0, 1], metadata := [] }

def item11 : KnowledgeItem :=
  { id := "k3", content := "one-one", category := "general",
    embedding := [1, 1], metadata := [] }

/-- Tie-break example items: proportional embeddings, ids out of order. -/
def itemB : KnowledgeItem :=
  { id := "b", content := "B", category := "general",
    embedding := [2, 0], metadata := [] }

def itemA : KnowledgeItem :=
  { id := "a", content := "A", category := "general",
    embedding := [1, 0], metadata := [] }

/-- An item whose embedding has zero norm. -/
def zeroItem : KnowledgeItem :=
  { id := "z", content := "x", category := "general",
    embedding := [0, 0], metadata := [] }

/-- A fixed encoder and hash used for concrete counterexamples. -/
def enc0 : String → List ℚ := fun _ => [1, 0]

def h0 : String → Int := fun _ => 0

/-! ### Arithmetic facts about the similarity comparison -/

theorem normSq_cons (x : ℚ) (v : List ℚ) :
    normSq (x :: v) = x * x + normSq v := by
  simp [normSq, dot]

theorem normSq_nonneg (v : List ℚ) : 0 ≤ normSq v := by
  induction v with
  | nil => simp [normSq, dot]
  | cons x xs ih =>
    rw [normSq_cons]
    exact add_nonneg (mul_self_nonneg x) ih

/-- For nonnegative factors, comparing `x * √u` with `y * √v` is comparing
`x² * u` with `y² * v`. -/
theorem mul_sqrt_lt_mul_sqrt {x y u v : ℝ} (hx : 0 ≤ x) (hy : 0 ≤ y)
    (hu : 0 ≤ u) :
    x * Real.sqrt u < y * Real.sqrt v ↔ x ^ 2 * u < y ^ 2 * v := by
  rw [show x * Real.sqrt u = Real.sqrt (x ^ 2 * u) by
        rw [Real.sqrt_mul (sq_nonneg x), Real.sqrt_sq hx],
      show y * Real.sqrt v = Real.sqrt (y ^ 2 * v) by
        rw [Real.sqrt_mul (sq_nonneg y), Real.sqrt_sq hy],
      Real.sqrt_lt_sqrt_iff (by positivity)]

/-- The rational comparison `ltPair` decides exactly the real comparison
of the two score values `a / √s` and `b / √t`. -/
theorem ltPair_iff {a s b t : ℚ} (hs : 0 < s) (ht : 0 < t) :
    ltPair a s b t = true ↔
      (a : ℝ) / Real.sqrt (s : ℝ) < (b : ℝ) / Real.sqrt (t : ℝ) := by
  have hsR : (0 : ℝ) < (s : ℝ) := by exact_mod_cast hs
  have htR : (0 : ℝ) < (t : ℝ) := by exact_mod_cast ht
  have hss : 0 < Real.sqrt (s : ℝ) := Real.sqrt_pos.mpr hsR
  have hts : 0 < Real.sqrt (t : ℝ) := Real.sqrt_pos.mpr htR
  have hcast : ∀ p r : ℚ, (p < r) ↔ ((p : ℝ) < (r : ℝ)) := fun p r => by
    exact_mod_cast Iff.rfl
  rw [div_lt_div_iff₀ hss hts]
  unfold ltPair
  by_cases ha : a < 0 <;> by_cases hb : b < 0 <;> simp [ha, hb]
  · -- a < 0, b < 0
    have haR : (a : ℝ) < 0 := by exact_mod_cast ha
    have hbR : (b : ℝ) < 0 := by exact_mod_cast hb
    rw [hcast, show ((a : ℝ) * Real.sqrt (t : ℝ) < b * Real.sqrt (s : ℝ)) ↔
        ((-(b : ℝ)) * Real.sqrt (s : ℝ) < (-(a : ℝ)) * Real.sqrt (t : ℝ)) by
          constructor <;> intro hlt <;> nlinarith]
    rw [mul_sqrt_lt_mul_sqrt (by linarith) (by linarith) hsR.le]
    push_cast
    constructor <;> intro hlt <;> nlinarith
  · -- a < 0 ≤ b
    have haR : (a : ℝ) < 0 := by exact_mod_cast ha
    have hbR : (0 : ℝ) ≤ (b : ℝ) := by exact_mod_cast not_lt.mp hb
    exact lt_of_lt_of_le (mul_neg_of_neg_of_pos haR hts)
      (mul_nonneg hbR hss.le)
  · -- b < 0 ≤ a
    have haR : (0 : ℝ) ≤ (a : ℝ) := by exact_mod_cast not_lt.mp ha
    have hbR : (b : ℝ) < 0 := by exact_mod_cast hb
    exact le_trans (le_of_lt (mul_neg_of_neg_of_pos hbR hss))
      (mul_nonneg haR hts.le)
  · -- 0 ≤ a, 0 ≤ b
    have haR : (0 : ℝ) ≤ (a : ℝ) := by exact_mod_cast not_lt.mp ha
    have hbR : (0 : ℝ) ≤ (b : ℝ) := by exact_mod_cast not_lt.mp hb
    rw [hcast, mul_sqrt_lt_mul_sqrt haR hbR htR.le]
    push_cast
    constructor <;> intro hlt <;> nlinarith

/-- When the query and both candidate embeddings have nonzero norm, the
boolean key comparison used by the sort decides exactly the order of the
cosine similarities computed by the source. -/
theorem keyLt_iff {q v1 v2 : List ℚ} (hq : normSq q ≠ 0)
    (h1 : normSq v1 ≠ 0) (h2 : normSq v2 ≠ 0) :
    keyLt (simKey q v1) (simKey q v2) = true ↔
      cosineSim q v1 < cosineSim q v2 := by
  have h1p : 0 < normSq v1 := (normSq_nonneg v1).lt_of_ne (Ne.symm h1)
  have h2p : 0 < normSq v2 := (normSq_nonneg v2).lt_of_ne (Ne.symm h2)
  have hqp : 0 < normSq q := (normSq_nonneg q).lt_of_ne (Ne.symm hq)
  have hqR : (0 : ℝ) < (normSq q : ℝ) := by exact_mod_cast hqp
  have e1 : simKey q v1 = some (dot q v1, normSq v1) := by
    unfold simKey
    rw [if_neg]
    push_neg
    exact ⟨hq, h1⟩
  have e2 : simKey q v2 = some (dot q v2, normSq v2) := by
    unfold simKey
    rw [if_neg]
    push_neg
    exact ⟨hq, h2⟩
  rw [e1, e2]
  show ltPair (dot q v1) (normSq v1) (dot q v2) (normSq v2) = true ↔ _
  rw [ltPair_iff h1p h2p]
  unfold cosineSim
  rw [div_mul_eq_div_div_swap, div_mul_eq_div_div_swap,
    div_lt_div_iff_of_pos_right (Real.sqrt_pos.mpr hqR)]

/-- The `false` side of `keyLt_iff`. -/
theorem keyLt_false_iff {q v1 v2 : List ℚ} (hq : normSq q ≠ 0)
    (h1 : normSq v1 ≠ 0) (h2 : normSq v2 ≠ 0) :
    keyLt (simKey q v1) (simKey q v2) = false ↔
      cosineSim q v2 ≤ cosineSim q v1 := by
  rw [← not_lt, ← keyLt_iff hq h1 h2]
  cases keyLt (simKey q v1) (simKey q v2) <;> simp


/-! ### Generic facts about the stable descending insertion sort -/

theorem mem_insertDesc {lt : α → α → Bool} (x z : α) (l : List α) :
    z ∈ insertDesc lt x l ↔ z = x ∨ z ∈ l := by
  induction l with
  | nil => simp [insertDesc]
  | cons y ys ih =>
    unfold insertDesc
    cases h : lt x y
    · simp [h]
    · simp [h, ih]
      tauto

theorem perm_insertDesc {lt : α → α → Bool} (x : α) (l : List α) :
    List.Perm (insertDesc lt x l) (x :: l) := by
  induction l with
  | nil => exact List.Perm.refl _
  | cons y ys ih =>
    unfold insertDesc
    cases h : lt x y
    · simp [h]
    · simp only [if_pos rfl]
      exact (ih.cons y).trans (List.Perm.swap x y ys)

theorem sortDesc_perm {lt : α → α → Bool} (l : List α) :
    List.Perm (sortDesc lt l) l := by
  induction l with
  | nil => exact List.Perm.refl _
  | cons x xs ih =>
    unfold sortDesc
    exact (perm_insertDesc x (sortDesc lt xs)).trans (ih.cons x)

theorem length_sortDesc {lt : α → α → Bool} (l : List α) :
    (sortDesc lt l).length = l.length :=
  (sortDesc_perm l).length_eq

/-- Transport of `Pairwise` along an implication that may use membership
of both elements. -/
theorem pairwise_imp_of_mem {R S : α → α → Prop} (l : List α)
    (H : ∀ a ∈ l, ∀ b ∈ l, R a b → S a b) (hp : l.Pairwise R) :
    l.Pairwise S := by
  induction l with
  | nil => exact List.Pairwise.nil
  | cons x xs ih =>
    rw [List.pairwise_cons] at hp ⊢
    refine ⟨fun b hb => H x (by simp) b (by simp [hb]) (hp.1 b hb), ?_⟩
    exact ih
      (fun a ha b hb hab => H a (by simp [ha]) b (by simp [hb]) hab) hp.2

/-- Inserting into a list that is pairwise not-ascending keeps it pairwise
not-ascending, provided the comparison is asymmetric and negatively
transitive on the elements involved. -/
theorem pairwise_insertDesc (lt : α → α → Bool) (x : α) (l : List α)
    (hasym : ∀ a ∈ x :: l, ∀ b ∈ x :: l, lt a b = true → lt b a = false)
    (hneg : ∀ a ∈ x :: l, ∀ b ∈ x :: l, ∀ c ∈ x :: l,
      lt a b = false → lt b c = false → lt a c = false)
    (hl : l.Pairwise (fun a b => lt a b = false)) :
    (insertDesc lt x l).Pairwise (fun a b => lt a b = false) := by
  induction l with
  | nil => simp [insertDesc]
  | cons y ys ih =>
    rw [List.pairwise_cons] at hl
    unfold insertDesc
    cases h : lt x y
    · rw [if_neg (by simp), List.pairwise_cons]
      constructor
      · intro z hz
        rcases List.mem_cons.mp hz with hzy | hz2
        · rw [hzy]
          exact h
        · exact hneg x (by simp) y (by simp) z (by simp [hz2]) h (hl.1 z hz2)
      · rw [List.pairwise_cons]
        exact ⟨hl.1, hl.2⟩
    · rw [if_pos rfl, List.pairwise_cons]
      constructor
      · intro z hz
        rcases (mem_insertDesc x z ys).mp hz with hzx | hz2
        · rw [hzx]
          exact hasym x (by simp) y (by simp) h
        · exact hl.1 z hz2
      · exact ih
          (fun a ha b hb hab => hasym a (by simp at ha ⊢; tauto)
            b (by simp at hb ⊢; tauto) hab)
          (fun a ha b hb c hc h1 h2 => hneg a (by simp at ha ⊢; tauto)
            b (by simp at hb ⊢; tauto) c (by simp at hc ⊢; tauto) h1 h2)
          hl.2

theorem pairwise_sortDesc (lt : α → α → Bool) (l : List α)
    (hasym : ∀ a ∈ l, ∀ b ∈ l, lt a b = true → lt b a = false)
    (hneg : ∀ a ∈ l, ∀ b ∈ l, ∀ c ∈ l,
      lt a b = false → lt b c = false → lt a c = false) :
    (sortDesc lt l).Pairwise (fun a b => lt a b = false) := by
  induction l with
  | nil => simp [sortDesc]
  | cons x xs ih =>
    unfold sortDesc
    have hmem : ∀ a ∈ x :: sortDesc lt xs, a ∈ x :: xs := by
      intro a ha
      rcases List.mem_cons.mp ha with hax | h2
      · rw [hax]
        simp
      · exact List.mem_cons_of_mem _ ((sortDesc_perm xs).mem_iff.mp h2)
    exact pairwise_insertDesc lt x (sortDesc lt xs)
      (fun a ha b hb hab => hasym a (hmem a ha) b (hmem b hb) hab)
      (fun a ha b hb c hc h1 h2 =>
        hneg a (hmem a ha) b (hmem b hb) c (hmem c hc) h1 h2)
      (ih
        (fun a ha b hb hab =>
          hasym a (List.mem_cons_of_mem _ ha) b (List.mem_cons_of_mem _ hb) hab)
        (fun a ha b hb c hc h1 h2 =>
          hneg a (List.mem_cons_of_mem _ ha) b (List.mem_cons_of_mem _ hb)
            c (List.mem_cons_of_mem _ hc) h1 h2))

theorem pySlice_sublist (l : List α) (k : Int) :
    List.Sublist (pySlice l k) l := by
  unfold pySlice
  by_cases hk : 0 ≤ k
  · rw [if_pos hk]
    exact List.take_sublist _ _
  · rw [if_neg hk]
    exact List.take_sublist _ _


/-! ### Facts about `searchVec` -/

theorem mem_scored {qv : List ℚ} {items : List KnowledgeItem}
    {p : Option (ℚ × ℚ) × KnowledgeItem} (hp : p ∈ scored qv items) :
    p.1 = simKey qv p.2.embedding ∧ p.2 ∈ items := by
  rcases List.mem_map.mp hp with ⟨it, hit, hpe⟩
  rw [← hpe]
  exact ⟨rfl, hit⟩

/-- Result count of `search`, covering Python's slice semantics for every
integer `top_k`: `min top_k n` items for `top_k ≥ 0`, the first
`n - min n |top_k|` items for `top_k < 0`. -/
theorem searchVec_len (qv : List ℚ) (items : List KnowledgeItem) (k : Int) :
    (searchVec qv items k).length =
      if 0 ≤ k then min k.toNat items.length
      else items.length - (-k).toNat := by
  unfold searchVec pySlice
  have hlen : (sortDesc (fun x y => keyLt x.1 y.1) (scored qv items)).length =
      items.length := by
    rw [length_sortDesc]
    simp [scored]
  by_cases hk : 0 ≤ k
  · rw [if_pos hk, if_pos hk]
    simp [hlen]
  · rw [if_neg hk, if_neg hk]
    simp only [List.length_map, List.length_take, hlen]
    exact Nat.min_eq_left (Nat.sub_le _ _)

/-- When `top_k` is at least the number of scanned items, `search` returns
every scanned item (in ranked order): nothing is ever filtered out, not
even an item with a zero-norm embedding. -/
theorem searchVec_perm_of_le (qv : List ℚ) (items : List KnowledgeItem)
    (k : Int) (hk : (items.length : Int) ≤ k) :
    List.Perm (searchVec qv items k) items := by
  have hk0 : 0 ≤ k := le_trans (Int.ofNat_nonneg _) hk
  have hlen : (sortDesc (fun x y => keyLt x.1 y.1) (scored qv items)).length =
      items.length := by
    rw [length_sortDesc]
    simp [scored]
  have htake : items.length ≤ k.toNat := by
    have h2 := Int.toNat_le_toNat hk
    simpa using h2
  unfold searchVec pySlice
  rw [if_pos hk0, List.take_of_length_le (by rw [hlen]; exact htake)]
  have hmap : List.Perm
      ((sortDesc (fun x y => keyLt x.1 y.1) (scored qv items)).map
        (fun p => p.2))
      ((scored qv items).map (fun p => p.2)) :=
    (sortDesc_perm _).map _
  refine hmap.trans ?_
  rw [show (scored qv items).map (fun p => p.2) = items by
    rw [scored, List.map_map,
      show ((fun p : Option (ℚ × ℚ) × KnowledgeItem => p.2) ∘
        fun it => (simKey qv it.embedding, it)) = id from rfl]
    exact List.map_id items]

/-- The output of `search` is ordered by non-increasing cosine similarity
whenever the query and all candidate embeddings have nonzero norm. -/
theorem searchVec_pairwise_desc (qv : List ℚ) (items : List KnowledgeItem)
    (k : Int) (hq : normSq qv ≠ 0)
    (hitems : ∀ it ∈ items, normSq it.embedding ≠ 0) :
    (searchVec qv items k).Pairwise
      (fun a b => cosineSim qv b.embedding ≤ cosineSim qv a.embedding) := by
  unfold searchVec
  rw [List.pairwise_map]
  apply List.Pairwise.sublist (pySlice_sublist _ k)
  have hasym2 : ∀ a ∈ scored qv items, ∀ b ∈ scored qv items,
      keyLt a.1 b.1 = true → keyLt b.1 a.1 = false := by
    intro a ha b hb hab
    have hva := mem_scored ha
    have hvb := mem_scored hb
    have hna := hitems a.2 hva.2
    have hnb := hitems b.2 hvb.2
    rw [hva.1, hvb.1] at hab
    rw [hvb.1, hva.1, keyLt_false_iff hq hnb hna]
    exact le_of_lt ((keyLt_iff hq hna hnb).mp hab)
  have hneg2 : ∀ a ∈ scored qv items, ∀ b ∈ scored qv items,
      ∀ c ∈ scored qv items,
      keyLt a.1 b.1 = false → keyLt b.1 c.1 = false →
        keyLt a.1 c.1 = false := by
    intro a ha b hb c hc h1 h2
    have hva := mem_scored ha
    have hvb := mem_scored hb
    have hvc := mem_scored hc
    have hna := hitems a.2 hva.2
    have hnb := hitems b.2 hvb.2
    have hnc := hitems c.2 hvc.2
    rw [hva.1, hvb.1, keyLt_false_iff hq hna hnb] at h1
    rw [hvb.1, hvc.1, keyLt_false_iff hq hnb hnc] at h2
    rw [hva.1, hvc.1, keyLt_false_iff hq hna hnc]
    exact le_trans h2 h1
  have hsorted := pairwise_sortDesc
    (fun x y : Option (ℚ × ℚ) × KnowledgeItem => keyLt x.1 y.1)
    (scored qv items) hasym2 hneg2
  refine pairwise_imp_of_mem _ ?_ hsorted
  intro a ha b hb hab
  have hva := mem_scored ((sortDesc_perm _).mem_iff.mp ha)
  have hvb := mem_scored ((sortDesc_perm _).mem_iff.mp hb)
  have hna := hitems a.2 hva.2
  have hnb := hitems b.2 hvb.2
  have hab2 : keyLt a.1 b.1 = false := hab
  rw [hva.1, hvb.1, keyLt_false_iff hq hna hnb] at hab2
  exact hab2

/-! ### Facts about the store update `putItem` -/

theorem mem_putItem_self (i : KnowledgeItem) (st : List KnowledgeItem) :
    i ∈ putItem i st := by
  unfold putItem
  by_cases h : st.any (fun x => decide (x.id = i.id)) = true
  · rw [if_pos h]
    rcases List.any_eq_true.mp h with ⟨x, hx, hxid⟩
    refine List.mem_map.mpr ⟨x, hx, ?_⟩
    rw [if_pos (of_decide_eq_true hxid)]
  · rw [if_neg h]
    simp

theorem mem_of_mem_putItem {i j : KnowledgeItem} {st : List KnowledgeItem}
    (hj : j ∈ putItem i st) : j = i ∨ j ∈ st := by
  unfold putItem at hj
  by_cases h : st.any (fun x => decide (x.id = i.id)) = true
  · rw [if_pos h] at hj
    rcases List.mem_map.mp hj with ⟨x, hx, hfx⟩
    by_cases hxid : x.id = i.id
    · rw [if_pos hxid] at hfx
      exact Or.inl hfx.symm
    · rw [if_neg hxid] at hfx
      exact Or.inr (hfx ▸ hx)
  · rw [if_neg h] at hj
    rcases List.mem_append.mp hj with hj2 | hj2
    · exact Or.inr hj2
    · exact Or.inl (List.mem_singleton.mp hj2)

theorem mem_putItem_iff_of_ne {i j : KnowledgeItem} (st : List KnowledgeItem)
    (hne : j.id ≠ i.id) : j ∈ putItem i st ↔ j ∈ st := by
  unfold putItem
  by_cases h : st.any (fun x => decide (x.id = i.id)) = true
  · rw [if_pos h]
    constructor
    · intro hj
      rcases List.mem_map.mp hj with ⟨x, hx, hfx⟩
      by_cases hxid : x.id = i.id
      · rw [if_pos hxid] at hfx
        exact absurd (hfx ▸ rfl) hne
      · rw [if_neg hxid] at hfx
        exact hfx ▸ hx
    · intro hj
      refine List.mem_map.mpr ⟨j, hj, ?_⟩
      rw [if_neg hne]
  · rw [if_neg h]
    rw [List.mem_append, List.mem_singleton]
    constructor
    · intro hj
      rcases hj with hj2 | hj2
      · exact hj2
      · exact absurd (hj2 ▸ rfl) hne
    · exact Or.inl

theorem putItem_idem (i : KnowledgeItem) (st : List KnowledgeItem) :
    putItem i (putItem i st) = putItem i st := by
  have hfix : ∀ a : KnowledgeItem,
      (if (if a.id = i.id then i else a).id = i.id then i
        else (if a.id = i.id then i else a)) =
      (if a.id = i.id then i else a) := by
    intro a
    by_cases ha : a.id = i.id
    · simp [ha]
    · simp [ha]
  unfold putItem
  by_cases h : st.any (fun x => decide (x.id = i.id)) = true
  · rw [if_pos h]
    have h2 : (st.map (fun x => if x.id = i.id then i else x)).any
        (fun x => decide (x.id = i.id)) = true := by
      rcases List.any_eq_true.mp h with ⟨x, hx, hxid⟩
      refine List.any_eq_true.mpr ⟨i, ?_, by simp⟩
      refine List.mem_map.mpr ⟨x, hx, ?_⟩
      rw [if_pos (of_decide_eq_true hxid)]
    rw [if_pos h2, List.map_map]
    exact List.map_congr_left (fun a _ => hfix a)
  · rw [if_neg h]
    have hnone : ∀ x ∈ st, ¬ x.id = i.id := by
      intro x hx hxid
      exact h (List.any_eq_true.mpr ⟨x, hx, decide_eq_true hxid⟩)
    have h2 : ((st ++ [i]).any (fun x => decide (x.id = i.id))) = true :=
      List.any_eq_true.mpr ⟨i, by simp, by simp⟩
    rw [if_pos h2, List.map_append]
    have h3 : st.map (fun x => if x.id = i.id then i else x) = st := by
      rw [show st = st.map id by rw [List.map_id]]
      rw [List.map_map]
      refine List.map_congr_left ?_
      intro a ha
      simp only [Function.comp, id]
      rw [if_neg (hnone a (by simpa using ha))]
    rw [h3]
    simp

/-! ### String facts used for the context rendering -/

theorem string_foldl_append (l : List String) :
    ∀ s : String, l.foldl (fun a b => a ++ b) s =
      s ++ l.foldl (fun a b => a ++ b) "" := by
  induction l with
  | nil => intro s; simp
  | cons x xs ih =>
    intro s
    rw [List.foldl_cons, List.foldl_cons, ih (s ++ x), ih ("" ++ x),
      String.empty_append, String.append_assoc]

/-- Folding line renderings over an accumulator is appending the joined
renderings. -/
theorem foldl_render_eq_join (g : Nat × KnowledgeItem → String) :
    ∀ (l : List (Nat × KnowledgeItem)) (s : String),
      l.foldl (fun acc p => acc ++ g p) s = s ++ String.join (l.map g) := by
  intro l
  induction l with
  | nil =>
    intro s
    simp [String.join]
  | cons p ps ih =>
    intro s
    rw [List.foldl_cons, ih (s ++ g p), List.map_cons]
    rw [show String.join (g p :: ps.map g) =
        (g p :: ps.map g).foldl (fun a b => a ++ b) "" from rfl]
    rw [List.foldl_cons, string_foldl_append (ps.map g) ("" ++ g p),
      String.empty_append, String.append_assoc]
    rw [show (ps.map g).foldl (fun a b => a ++ b) "" =
        String.join (ps.map g) from rfl]

theorem length_le_foldl_render (g : Nat × KnowledgeItem → String) :
    ∀ (l : List (Nat × KnowledgeItem)) (s : String),
      s.length ≤ (l.foldl (fun acc p => acc ++ g p) s).length := by
  intro l
  induction l with
  | nil => intro s; simp
  | cons p ps ih =>
    intro s
    refine le_trans ?_ (ih (s ++ g p))
    rw [String.length_append]
    exact Nat.le_add_right _ _

/-! ### Claim theorems -/

/-- C1: the order used by `search` to rank candidates is exactly the order
of the cosine similarities `dot(q,v) / (‖q‖·‖v‖)` (whenever query and
candidate norms are nonzero), and on the store `[1,0]`, `[0,1]`, `[1,1]`
with query `[1,0]` and `top_k = 2` the result is the `[1,0]` item (score 1)
followed by the `[1,1]` item (score √2/2 ≈ 0.707), excluding the `[0,1]`
item (score 0). -/
theorem C1_search_score_is_cosine :
    (∀ q v1 v2 : List ℚ, normSq q ≠ 0 → normSq v1 ≠ 0 → normSq v2 ≠ 0 →
      (keyLt (simKey q v1) (simKey q v2) = true ↔
        cosineSim q v1 < cosineSim q v2)) ∧
    cosineSim [1, 0] [1, 0] = 1 ∧
    cosineSim [1, 0] [1, 1] = Real.sqrt 2 / 2 ∧
    cosineSim [1, 0] [0, 1] = 0 ∧
    searchVec [1, 0] [item10, item01, item11] 2 = [item10, item11] := by
  refine ⟨fun q v1 v2 hq h1 h2 => keyLt_iff hq h1 h2, ?_, ?_, ?_, ?_⟩
  · unfold cosineSim normSq dot
    norm_num [Real.sqrt_one]
  · unfold cosineSim normSq dot
    norm_num [Real.sqrt_one]
    rw [inv_eq_one_div,
      div_eq_div_iff (ne_of_gt (Real.sqrt_pos.mpr (by norm_num)))
        (by norm_num : (2:ℝ) ≠ 0)]
    rw [one_mul]
    exact (Real.mul_self_sqrt (by norm_num)).symm
  · unfold cosineSim normSq dot
    norm_num
  · with_unfolding_all rfl

/-- Witness for C1 at concrete inputs: the hypotheses of the universally
quantified conjunct hold for the example vectors. -/
theorem C1_search_score_is_cosine_witness :
    normSq ([1, 0] : List ℚ) ≠ 0 ∧ normSq ([0, 1] : List ℚ) ≠ 0 ∧
    normSq ([1, 1] : List ℚ) ≠ 0 ∧
    (keyLt (simKey [1, 0] [0, 1]) (simKey [1, 0] [1, 1]) = true ↔
      cosineSim [1, 0] [0, 1] < cosineSim [1, 0] [1, 1]) :=
  ⟨by with_unfolding_all decide, by with_unfolding_all decide,
   by with_unfolding_all decide,
   C1_search_score_is_cosine.1 [1, 0] [0, 1] [1, 1]
     (by with_unfolding_all decide) (by with_unfolding_all decide)
     (by with_unfolding_all decide)⟩

/-- C2 counterexample: `itemB` (embedding `[2,0]`, id `"b"`) and `itemA`
(embedding `[1,0]`, id `"a"`) have proportional embeddings, so they tie
(cosine 1 against query `[1,0]`).  Scanned in the order `[itemB, itemA]`,
`search` returns them in scan order — not in ascending id order
`[itemA, itemB]` as the claim requires. -/
theorem C2_tie_order_counterexample :
    cosineSim [1, 0] [2, 0] = cosineSim [1, 0] [1, 0] ∧
    itemB.embedding = [2, 0] ∧ itemA.embedding = [1, 0] ∧
    itemB.id = "b" ∧ itemA.id = "a" ∧
    searchVec [1, 0] [itemB, itemA] 2 = [itemB, itemA] ∧
    searchVec [1, 0] [itemB, itemA] 2 ≠ [itemA, itemB] := by
  refine ⟨?_, rfl, rfl, rfl, rfl, by with_unfolding_all rfl,
    by with_unfolding_all decide⟩
  have e1 : cosineSim [1, 0] [2, 0] = 1 := by
    unfold cosineSim normSq dot
    norm_num [Real.sqrt_one]
    rw [show ((4:ℝ)) = 2 ^ 2 by norm_num,
      Real.sqrt_sq (by norm_num : (0:ℝ) ≤ 2)]
    norm_num
  have e2 : cosineSim [1, 0] [1, 0] = 1 := by
    unfold cosineSim normSq dot
    norm_num [Real.sqrt_one]
  rw [e1, e2]

/-- C2 amended: the result of `search` is ordered by non-increasing (not
strictly decreasing) cosine similarity; candidates with equal score are
returned in scan order (the sort is stable), not in ascending id order.
Determinism over an unchanged candidate sequence is immediate because the
model of `search` is a pure function of the scan sequence. -/
theorem C2_amended_descending_stable :
    (∀ (qv : List ℚ) (items : List KnowledgeItem) (k : Int),
      normSq qv ≠ 0 → (∀ it ∈ items, normSq it.embedding ≠ 0) →
      (searchVec qv items k).Pairwise
        (fun a b => cosineSim qv b.embedding ≤ cosineSim qv a.embedding)) ∧
    searchVec [1, 0] [itemB, itemA] 2 = [itemB, itemA] :=
  ⟨fun qv items k hq hi => searchVec_pairwise_desc qv items k hq hi,
   by with_unfolding_all rfl⟩

/-- Witness for the amended C2: concrete non-degenerate store. -/
theorem C2_amended_descending_stable_witness :
    normSq ([1, 0] : List ℚ) ≠ 0 ∧
    (∀ it ∈ [item10, item11, item01], normSq it.embedding ≠ 0) ∧
    (searchVec [1, 0] [item10, item11, item01] 2).Pairwise
      (fun a b =>
        cosineSim [1, 0] b.embedding ≤ cosineSim [1, 0] a.embedding) :=
  ⟨by with_unfolding_all decide, by with_unfolding_all decide,
   C2_amended_descending_stable.1 [1, 0] [item10, item11, item01] 2
     (by with_unfolding_all decide) (by with_unfolding_all decide)⟩

/-- C3 counterexample: a store whose only item has the zero embedding
`[0,0]`.  Its similarity is the float NaN (modelled `none`), it is not
filtered out, and `search` with the default `top_k = 3` returns it. -/
theorem C3_zero_norm_returned_counterexample :
    normSq zeroItem.embedding = 0 ∧
    zeroItem ∈ searchVec [1, 0] [zeroItem] 3 := by
  constructor
  · with_unfolding_all rfl
  · with_unfolding_all decide

/-- C3 amended: `search` performs no zero-norm filtering at all; whenever
`top_k` is at least the candidate count, every candidate — including every
zero-norm one — appears in the result.  (The ranking also never fails: the
model is a total function.) -/
theorem C3_amended_no_filtering :
    ∀ (qv : List ℚ) (items : List KnowledgeItem) (k : Int),
      (items.length : Int) ≤ k →
      List.Perm (searchVec qv items k) items :=
  fun qv items k hk => searchVec_perm_of_le qv items k hk

/-- Witness for the amended C3, exercised on the zero-norm store. -/
theorem C3_amended_no_filtering_witness :
    List.Perm (searchVec [1, 0] [zeroItem] 3) [zeroItem] :=
  C3_amended_no_filtering [1, 0] [zeroItem] 3 (by decide)

/-- C4: `add_knowledge` is idempotent in `(category, content)`: the id is
the same deterministic function of category and content on both calls
(within one process, i.e. for one hash function), the second call
overwrites the first item rather than duplicating it — the store is
literally unchanged — and in particular the item count does not grow. -/
theorem C4_add_knowledge_idempotent :
    ∀ (enc : String → List ℚ) (h : String → Int) (content category : String)
      (m : Option (List (String × String))) (st : List KnowledgeItem),
      add_knowledge enc h content category m
          (add_knowledge enc h content category m st) =
        add_knowledge enc h content category m st ∧
      (add_knowledge enc h content category m
          (add_knowledge enc h content category m st)).length =
        (add_knowledge enc h content category m st).length := by
  intro enc h content category m st
  refine ⟨putItem_idem _ st, ?_⟩
  exact congrArg List.length (putItem_idem _ st)

/-- C5 counterexample: `add_knowledge` with empty content on the empty
store raises no error and stores an item whose `content` field is the
empty string — there is no `ValidationError` in the source. -/
theorem C5_empty_content_stored_counterexample :
    add_knowledge enc0 h0 "" "general" none [] =
      [{ id := "general_0", content := "", category := "general",
         embedding := [1, 0], metadata := [] }] ∧
    (add_knowledge enc0 h0 "" "general" none []).all
      (fun it => decide (it.content = "")) = true := by
  constructor
  · with_unfolding_all rfl
  · with_unfolding_all rfl

/-- C5 amended: `add_knowledge` performs no validation of `content`: for
every content string, including the empty string, the call succeeds and
the store afterwards contains an item under the derived id whose content
is exactly the given string.  Stored items may therefore have empty
content. -/
theorem C5_amended_no_validation :
    ∀ (enc : String → List ℚ) (h : String → Int) (content category : String)
      (m : Option (List (String × String))) (st : List KnowledgeItem),
      ∃ it ∈ add_knowledge enc h content category m st,
        it.id = derivedId h category content ∧ it.content = content := by
  intro enc h content category m st
  exact ⟨_, mem_putItem_self _ st, rfl, rfl⟩

/-- C6: every stored item's embedding has the provider's fixed length `D`:
if the encoder always returns vectors of length `D`, then after any
sequence of `add_knowledge` calls on a store satisfying the invariant,
every stored item's embedding still has length `D` (embeddings are stored
exactly as returned — never truncated or padded).  The interface has no
insert taking a precomputed embedding, so no other dimension can enter. -/
theorem C6_embedding_dimension_invariant :
    ∀ (enc : String → List ℚ) (h : String → Int) (D : Nat),
      (∀ s, (enc s).length = D) →
      ∀ (calls : List (String × String × Option (List (String × String))))
        (st : List KnowledgeItem),
        (∀ it ∈ st, it.embedding.length = D) →
        ∀ it ∈ applyCalls enc h calls st, it.embedding.length = D := by
  intro enc h D hD calls
  induction calls with
  | nil => intro st hst it hit; exact hst it hit
  | cons c cs ih =>
    intro st hst it hit
    refine ih (add_knowledge enc h c.1 c.2.1 c.2.2 st) ?_ it hit
    intro j hj
    rcases mem_of_mem_putItem hj with hj2 | hj2
    · rw [hj2]
      exact hD c.1
    · exact hst j hj2

/-- Witness for C6: a concrete 2-dimensional encoder and two inserts. -/
theorem C6_embedding_dimension_invariant_witness :
    (applyCalls enc0 h0 [("alpha", "general", none), ("beta", "cat", none)]
      []).all (fun it => decide (it.embedding.length = 2)) = true := by
  have h2 := C6_embedding_dimension_invariant enc0 h0 2 (fun s => rfl)
    [("alpha", "general", none), ("beta", "cat", none)] []
    (fun it hit => absurd hit (List.not_mem_nil it))
  rw [List.all_eq_true]
  intro it hit
  exact decide_eq_true (h2 it hit)

/-- C9: frame property of `add_knowledge`: an item whose id differs from
the derived id is in the store before the call exactly when the identical
item (same content, category, embedding and metadata) is in the store
after it; only the entry under the derived id can be created or
replaced. -/
theorem C9_add_knowledge_frame :
    ∀ (enc : String → List ℚ) (h : String → Int) (content category : String)
      (m : Option (List (String × String))) (st : List KnowledgeItem)
      (j : KnowledgeItem),
      j.id ≠ derivedId h category content →
      (j ∈ st ↔ j ∈ add_knowledge enc h content category m st) := by
  intro enc h content category m st j hne
  exact (mem_putItem_iff_of_ne st hne).symm

/-- Witness for C9: an unrelated stored item survives an insert. -/
theorem C9_add_knowledge_frame_witness :
    item10.id ≠ derivedId h0 "general" "other" ∧
    (item10 ∈ [item10] ↔
      item10 ∈ add_knowledge enc0 h0 "other" "general" none [item10]) :=
  ⟨by with_unfolding_all decide,
   C9_add_knowledge_frame enc0 h0 "other" "general" none [item10] item10
     (by with_unfolding_all decide)⟩

/-- C7 counterexample: with two candidates and `top_k = -1`, the Python
slice `[:top_k]` keeps all but the last element, so `search` returns one
item — not the empty sequence the claim requires for every `k ≤ 0`. -/
theorem C7_negative_k_counterexample :
    searchVec [1, 0] [item10, item01] (-1) = [item10] ∧
    searchVec [1, 0] [item10, item01] (-1) ≠ [] := by
  constructor
  · with_unfolding_all rfl
  · with_unfolding_all decide

/-- C7 amended: for `k ≥ 0` the result has `min k n` items (so `k = 0`
yields the empty sequence and `k > n` yields all `n` ranked candidates,
which are a permutation of the store); for `k < 0` Python slice semantics
apply and the result keeps the first `n - min n |k|` ranked candidates. -/
theorem C7_amended_slice_semantics :
    (∀ (qv : List ℚ) (items : List KnowledgeItem) (k : Int),
      (searchVec qv items k).length =
        if 0 ≤ k then min k.toNat items.length
        else items.length - (-k).toNat) ∧
    (∀ (qv : List ℚ) (items : List KnowledgeItem) (k : Int),
      (items.length : Int) ≤ k → List.Perm (searchVec qv items k) items) :=
  ⟨searchVec_len, searchVec_perm_of_le⟩

/-- Witness for the amended C7: `k = 5` larger than the candidate count
returns all candidates. -/
theorem C7_amended_slice_semantics_witness :
    List.Perm (searchVec [1, 0] [item10, item01] 5) [item10, item01] :=
  C7_amended_slice_semantics.2 [1, 0] [item10, item01] 5 (by decide)

/-- C8 counterexample: a store whose only candidate has the zero-norm
embedding `[0,0]` is not filtered; `get_context` renders it and returns a
non-empty string, contradicting the claim that no candidate surviving
zero-norm filtering yields the empty string. -/
theorem C8_zero_norm_context_counterexample :
    normSq zeroItem.embedding = 0 ∧
    get_context enc0 "query" [zeroItem] = "📚 Relevant Knowledge:\n1. x\n" ∧
    get_context enc0 "query" [zeroItem] ≠ "" := by
  refine ⟨by with_unfolding_all rfl, by with_unfolding_all rfl,
    by with_unfolding_all decide⟩

/-- C8 amended: `get_context` returns the empty string exactly when the
store holds no candidate at all (and it never raises); there is no
norm-validity filtering, so any candidate — zero-norm included — produces
a non-empty context. -/
theorem C8_amended_empty_iff_no_candidates :
    ∀ (enc : String → List ℚ) (query : String) (items : List KnowledgeItem),
      (get_context enc query items = "" ↔ items = []) := by
  intro enc query items
  cases items with
  | nil => exact ⟨fun _ => rfl, fun _ => rfl⟩
  | cons it rest =>
    constructor
    · intro hempty
      exfalso
      have hlen0 : (search enc query (it :: rest) 3).length =
          min (3 : Int).toNat (it :: rest).length := by
        have h3 := searchVec_len (enc query) (it :: rest) 3
        rwa [if_pos (by decide : (0 : Int) ≤ 3)] at h3
      have hpos : 0 < (search enc query (it :: rest) 3).length := by
        rw [hlen0]
        exact Nat.lt_min.mpr ⟨by norm_num, Nat.succ_pos _⟩
      have hne2 : search enc query (it :: rest) 3 ≠ [] := by
        intro hcon
        rw [hcon] at hpos
        simp at hpos
      have hne : (search enc query (it :: rest) 3).isEmpty = false := by
        cases hcase : search enc query (it :: rest) 3 with
        | nil => exact absurd hcase hne2
        | cons a as => rfl
      have hgc : get_context enc query (it :: rest) =
          if (search enc query (it :: rest) 3).isEmpty then ""
          else (search enc query (it :: rest) 3).enum.foldl
            (fun s p =>
              s ++ (toString (p.1 + 1) ++ ". " ++ p.2.content ++ "\n"))
            "📚 Relevant Knowledge:\n" := rfl
      rw [hgc, hne] at hempty
      simp only [Bool.false_eq_true, if_false] at hempty
      have hlen2 := length_le_foldl_render
        (fun p => toString (p.1 + 1) ++ ". " ++ p.2.content ++ "\n")
        ((search enc query (it :: rest) 3).enum) "📚 Relevant Knowledge:\n"
      rw [hempty] at hlen2
      exact absurd hlen2 (by decide)
    · intro hcon
      exact absurd hcon (List.cons_ne_nil it rest)

/-- C10: `get_context` exposes no `top_k` parameter (its type has none);
its value is exactly the numbered-list rendering of `search(query, 3)`
(empty string when there are no results), so a caller always receives at
most 3 snippets and cannot request a different count. -/
theorem C10_get_context_is_render_of_search3 :
    ∀ (enc : String → List ℚ) (query : String) (items : List KnowledgeItem),
      get_context enc query items =
        (if (search enc query items 3).isEmpty then ""
         else renderNumbered (search enc query items 3)) ∧
      (search enc query items 3).length ≤ 3 := by
  intro enc query items
  constructor
  · rw [show get_context enc query items =
        (if (search enc query items 3).isEmpty then ""
         else (search enc query items 3).enum.foldl
           (fun s p =>
             s ++ (toString (p.1 + 1) ++ ". " ++ p.2.content ++ "\n"))
           "📚 Relevant Knowledge:\n") from rfl]
    by_cases hcase : (search enc query items 3).isEmpty = true
    · rw [if_pos hcase, if_pos hcase]
    · rw [if_neg hcase, if_neg hcase,
        foldl_render_eq_join
          (fun p => toString (p.1 + 1) ++ ". " ++ p.2.content ++ "\n")
          ((search enc query items 3).enum) "📚 Relevant Knowledge:\n"]
      rfl
  · have h3 := searchVec_len (enc query) items 3
    rw [if_pos (by decide : (0 : Int) ≤ 3)] at h3
    rw [show search enc query items 3 = searchVec (enc query) items 3
      from rfl, h3]
    exact Nat.min_le_left _ _
